import Mathlib

/-!
Verification of the per-vnode storage engine of the cnosdb repository.

This file gives a shallow embedding of the parts of `tskv/src/tseries_family.rs`,
`tskv/src/version_set.rs` and `tskv/src/compaction/mod.rs` that the checked
claims are about, and settles each claim with a theorem.

Modelling conventions:
* Machine integers (`i64` timestamps, `u64` sizes and ids, `u32` levels) are
  embedded as `Int` and `Nat`; none of the embedded operations performs
  arithmetic that can wrap in the source (they only compare, take `min`/`max`,
  or add sizes that the engine keeps far below `u64::MAX`).
* `Arc<ColumnFile>` sharing is value-based here; the single piece of interior
  mutability that the embedded code exercises (the `deleted` atomic flag set by
  `ColumnFile::mark_deleted`) is rendered explicitly: `Version.copy_apply_core`
  additionally returns the `(level, file_id)` pairs on which the source calls
  `mark_deleted`, and `Version.afterApplyOld` applies those marks to the old
  `Version`, giving the state of the shared files after the call.
* File-system paths, loggers, channels and the compaction picker trait object
  are irrelevant to every claim and are omitted from the structures.
-/

/-- `i64::MAX`, the timestamp extremum used as the empty-range sentinel minimum. -/
def timestampMax : Int := 9223372036854775807

/-- `i64::MIN`, the timestamp extremum used as the empty-range sentinel maximum. -/
def timestampMin : Int := -9223372036854775808

/-- `TimeRange`: closed interval over `i64` timestamps
(`tseries_family.rs`, struct `TimeRange`). -/
structure TimeRange where
  min_ts : Int
  max_ts : Int
deriving DecidableEq, Repr

/-- `TimeRange::new` (`tseries_family.rs`). -/
def TimeRange.new (min_ts max_ts : Int) : TimeRange :=
  { min_ts := min_ts, max_ts := max_ts }

/-- `TimeRange::overlaps`: `!(self.min_ts > range.max_ts || self.max_ts < range.min_ts)`. -/
def TimeRange.overlaps (a b : TimeRange) : Bool :=
  !(decide (a.min_ts > b.max_ts) || decide (a.max_ts < b.min_ts))

/-- `TimeRange::includes`: `self.min_ts <= other.min_ts && self.max_ts >= other.max_ts`. -/
def TimeRange.includes (a b : TimeRange) : Bool :=
  decide (a.min_ts ≤ b.min_ts) && decide (a.max_ts ≥ b.max_ts)

/-- `TimeRange::merge`: expanding union (the source mutates `self` in place;
here the merged range is returned). -/
def TimeRange.mergeWith (a b : TimeRange) : TimeRange :=
  { min_ts := min a.min_ts b.min_ts, max_ts := max a.max_ts b.max_ts }

/-- `TimeRange::contains`: `time_stamp >= self.min_ts && time_stamp <= self.max_ts`. -/
def TimeRange.containsTs (a : TimeRange) (ts : Int) : Bool :=
  decide (ts ≥ a.min_ts) && decide (ts ≤ a.max_ts)

/-- Claim C5, counterexample: with the sentinel empty range `b = (MAX, MIN)`
(explicitly allowed by the claim) and `a = [0, 0]`, `a.includes(b)` holds but
`a.overlaps(b)` does not. -/
theorem c5_includes_overlaps_counterexample :
    (TimeRange.new 0 0).includes (TimeRange.new timestampMax timestampMin) = true ∧
    (TimeRange.new 0 0).overlaps (TimeRange.new timestampMax timestampMin) = false := by
  constructor <;> decide

/-- Claim C5, amended: for `TimeRange`s `a` and `b` where `b` is not an empty
range (`b.min_ts ≤ b.max_ts`), `a.includes(b)` implies `a.overlaps(b)`. -/
theorem c5_includes_implies_overlaps (a b : TimeRange) (hb : b.min_ts ≤ b.max_ts)
    (h : a.includes b = true) : a.overlaps b = true := by
  simp only [TimeRange.includes, Bool.and_eq_true, decide_eq_true_eq] at h
  simp only [TimeRange.overlaps, Bool.or_eq_true, decide_eq_true_eq, Bool.not_eq_true',
    Bool.or_eq_false_iff, decide_eq_false_iff_not, not_lt]
  omega

/-- Witness for `c5_includes_implies_overlaps` at `a = [0, 5]`, `b = [1, 2]`. -/
theorem c5_includes_implies_overlaps_witness :
    (TimeRange.new 0 5).overlaps (TimeRange.new 1 2) = true :=
  c5_includes_implies_overlaps (TimeRange.new 0 5) (TimeRange.new 1 2)
    (by decide) (by decide)

/-- `StorageOptions`: of the storage configuration only `level_file_size`
(used for `LevelInfo::init`'s `max_size`) is consumed by the embedded code. -/
structure StorageOptions where
  level_file_size : Nat → Nat

/-- `ColumnFile` (`tseries_family.rs`): immutable on-disk segment descriptor.
The bloom filter is embedded as its probe function, the `deleted`/`compacting`
atomics as plain `Bool` fields (see the heap-rendering note in the header),
and the `path` field is omitted (no claim observes paths). -/
structure ColumnFile where
  file_id : Nat
  level : Nat
  is_delta : Bool
  time_range : TimeRange
  size : Nat
  field_id_bloom_filter : Nat → Bool
  deleted : Bool
  compacting : Bool

/-- `ColumnFile::overlap`: delegates to `TimeRange::overlaps`. -/
def ColumnFile.overlap (f : ColumnFile) (time_range : TimeRange) : Bool :=
  f.time_range.overlaps time_range

/-- `ColumnFile::contains_field_id`: one bloom-filter probe. -/
def ColumnFile.contains_field_id (f : ColumnFile) (field_id : Nat) : Bool :=
  f.field_id_bloom_filter field_id

/-- `ColumnFile::contains_any_field_id`: probes each id, returning at the
first hit. -/
def ColumnFile.contains_any_field_id (f : ColumnFile) (field_ids : List Nat) : Bool :=
  field_ids.any (fun field_id => f.field_id_bloom_filter field_id)

/-- `CompactMeta` (`summary.rs`, as constructed and consumed in
`tseries_family.rs`): descriptor of a file added by a `VersionEdit`. -/
structure CompactMeta where
  file_id : Nat
  file_size : Nat
  tsf_id : Nat
  level : Nat
  min_ts : Int
  max_ts : Int
  high_seq : Nat
  low_seq : Nat
  is_delta : Bool
deriving DecidableEq, Repr

/-- One entry of `VersionEdit::del_files`: `(level, file_id, is_delta)`. -/
structure DeletedFile where
  level : Nat
  file_id : Nat
  is_delta : Bool
deriving DecidableEq, Repr

/-- `VersionEdit` (`summary.rs`): only the `add_files` and `del_files` fields
are read by `Version::copy_apply_version_edits`; the remaining summary-log
fields play no part in any claim. -/
structure VersionEdit where
  add_files : List CompactMeta
  del_files : List DeletedFile
deriving DecidableEq, Repr

/-- `ColumnFile::with_compact_data`: a fresh file built from a `CompactMeta`
(`ColumnFile::new` gives it an empty 512-bit bloom filter, which admits no id,
and clear `deleted`/`compacting` flags). -/
def ColumnFile.with_compact_data (meta : CompactMeta) : ColumnFile :=
  { file_id := meta.file_id
    level := meta.level
    is_delta := meta.is_delta
    time_range := TimeRange.new meta.min_ts meta.max_ts
    size := meta.file_size
    field_id_bloom_filter := fun _ => false
    deleted := false
    compacting := false }

/-- `LevelInfo` (`tseries_family.rs`): the per-level ordered collection of
column files. -/
structure LevelInfo where
  files : List ColumnFile
  database : String
  tsf_id : Nat
  storage_opt : StorageOptions
  level : Nat
  cur_size : Nat
  max_size : Nat
  time_range : TimeRange

/-- `LevelInfo::init`: an empty level with the sentinel `(MAX, MIN)` range. -/
def LevelInfo.init (database : String) (level : Nat) (tsf_id : Nat)
    (storage_opt : StorageOptions) : LevelInfo :=
  { files := []
    database := database
    tsf_id := tsf_id
    storage_opt := storage_opt
    level := level
    cur_size := 0
    max_size := storage_opt.level_file_size level
    time_range := { min_ts := timestampMax, max_ts := timestampMin } }

/-- `LevelInfo::init_levels`: the five fresh levels `0..=4`. -/
def LevelInfo.init_levels (database : String) (tsf_id : Nat)
    (storage_opt : StorageOptions) : List LevelInfo :=
  [LevelInfo.init database 0 tsf_id storage_opt,
   LevelInfo.init database 1 tsf_id storage_opt,
   LevelInfo.init database 2 tsf_id storage_opt,
   LevelInfo.init database 3 tsf_id storage_opt,
   LevelInfo.init database 4 tsf_id storage_opt]

/-- The comparison used by `LevelInfo::sort_file_asc`
(`sort_by` on `file_id`, ascending). -/
def fileIdLe (a b : ColumnFile) : Prop := a.file_id ≤ b.file_id

instance : DecidableRel fileIdLe := fun a b => Nat.decLe a.file_id b.file_id

instance : IsTotal ColumnFile fileIdLe := ⟨fun a b => Nat.le_total a.file_id b.file_id⟩

instance : IsTrans ColumnFile fileIdLe := ⟨fun _ _ _ => Nat.le_trans⟩

/-- `LevelInfo::sort_file_asc`: stable sort of `files` by ascending `file_id`
(Rust's `sort_by` is stable; `List.insertionSort` is the same stable sort). -/
def LevelInfo.sort_file_asc (li : LevelInfo) : LevelInfo :=
  { li with files := li.files.insertionSort fileIdLe }

/-- `LevelInfo::push_column_file`: append, grow `cur_size`, merge `time_range`,
re-sort. -/
def LevelInfo.push_column_file (li : LevelInfo) (file : ColumnFile) : LevelInfo :=
  LevelInfo.sort_file_asc
    { li with
      cur_size := li.cur_size + file.size
      time_range :=
        { min_ts := min li.time_range.min_ts file.time_range.min_ts
          max_ts := max li.time_range.max_ts file.time_range.max_ts }
      files := li.files ++ [file] }

/-- `LevelInfo::push_compact_meta`: install a fresh `ColumnFile` built from the
meta (the delta/tsm path construction is omitted with the `path` field),
take over `tsf_id`, grow `cur_size`, merge `time_range`, re-sort. -/
def LevelInfo.push_compact_meta (li : LevelInfo) (compact_meta : CompactMeta) : LevelInfo :=
  LevelInfo.sort_file_asc
    { li with
      files := li.files ++ [ColumnFile.with_compact_data compact_meta]
      tsf_id := compact_meta.tsf_id
      cur_size := li.cur_size + compact_meta.file_size
      time_range :=
        { min_ts := min li.time_range.min_ts compact_meta.min_ts
          max_ts := max li.time_range.max_ts compact_meta.max_ts } }

/-- `LevelInfo::update_time_range`: recompute the bounds from the current
files; an empty level collapses to the sentinel `(MAX, MIN)`. -/
def LevelInfo.update_time_range (li : LevelInfo) : LevelInfo :=
  { li with
    time_range :=
      li.files.foldl
        (fun acc f =>
          { min_ts := min acc.min_ts f.time_range.min_ts
            max_ts := max acc.max_ts f.time_range.max_ts })
        { min_ts := timestampMax, max_ts := timestampMin } }

/-- `Version` (`tseries_family.rs`): immutable snapshot of a vnode's on-disk
state. `levels_info` is `[LevelInfo; 5]` in the source; a well-formed value
here is a list of length 5 whose entry `i` has `level = i`. -/
structure Version where
  ts_family_id : Nat
  database : String
  storage_opt : StorageOptions
  last_seq : Nat
  max_level_ts : Int
  levels_info : List LevelInfo

/-- `Version::update_max_level_ts`: scan all levels for the maximum file
`max_ts` (so all-empty levels give `i64::MIN`); an empty `levels_info` is left
untouched (impossible for the 5-element array, kept for fidelity). -/
def Version.update_max_level_ts (v : Version) : Version :=
  if v.levels_info.isEmpty then v
  else
    { v with
      max_level_ts :=
        v.levels_info.foldl
          (fun acc L =>
            if L.files.isEmpty then acc
            else L.files.foldl (fun acc f => max f.time_range.max_ts acc) acc)
          timestampMin }

/-- The `added_files` map of `Version::copy_apply_version_edits`: the metas of
all edits' `add_files`, grouped by level, in edit order (a `HashMap` whose
per-level `Vec` is filled by pushes in iteration order). -/
def added_files (version_edits : List VersionEdit) (level : Nat) : List CompactMeta :=
  (version_edits.foldr (fun ve acc => ve.add_files ++ acc) []).filter
    (fun meta => meta.level == level)

/-- Membership in the `deleted_files` map of `Version::copy_apply_version_edits`
(a `HashMap<LevelId, HashSet<ColumnFileId>>`): whether some edit's `del_files`
holds the pair `(level, file_id)`. -/
def deleted_files_contains (version_edits : List VersionEdit) (level file_id : Nat) : Bool :=
  version_edits.any
    (fun ve => ve.del_files.any (fun d => d.level == level && d.file_id == file_id))

/-- Accumulator of the level-rebuilding loop of
`Version::copy_apply_version_edits`: the new levels being filled, the levels
whose `added_files` entry was already consumed (`added_files.remove`), and the
`(level, file_id)` pairs of the `ColumnFile::mark_deleted` calls made so far. -/
structure ApplyAcc where
  levels : List LevelInfo
  consumed : List Nat
  marked : List (Nat × Nat)

/-- In-place update of the element at an index of a list; `new_levels[i]` in
the source (out-of-range indices, which would panic in Rust, never occur for a
well-formed `Version` and are a no-op here). -/
def modifyAt {α : Type} (g : α → α) : Nat → List α → List α
  | _, [] => []
  | 0, x :: xs => g x :: xs
  | n + 1, x :: xs => x :: modifyAt g n xs

/-- Body of the inner loop over one current level's files: a file whose
`(level, file_id)` is in `deleted_files` is `mark_deleted`-ed (recorded in
`marked`) and dropped; survivors are pushed into `new_levels[lvl]`. -/
def applyFilesStep (version_edits : List VersionEdit) (lvl : Nat)
    (acc : ApplyAcc) (f : ColumnFile) : ApplyAcc :=
  if deleted_files_contains version_edits f.level f.file_id then
    { acc with marked := acc.marked ++ [(f.level, f.file_id)] }
  else
    { acc with levels := modifyAt (fun nl => nl.push_column_file f) lvl acc.levels }

/-- Body of the loop over one level's `added_files` entry. -/
def applyAddStep (lvl : Nat) (acc : ApplyAcc) (meta : CompactMeta) : ApplyAcc :=
  { acc with levels := modifyAt (fun nl => nl.push_compact_meta meta) lvl acc.levels }

/-- One iteration of the outer loop of `Version::copy_apply_version_edits`
over a current level `L`: process `L`'s files, then the (not yet consumed)
added metas for `L.level`, then `update_time_range` on `new_levels[L.level]`. -/
def copy_apply_step (version_edits : List VersionEdit) (acc : ApplyAcc)
    (L : LevelInfo) : ApplyAcc :=
  let acc1 := L.files.foldl (applyFilesStep version_edits L.level) acc
  let adds := if acc1.consumed.contains L.level then [] else added_files version_edits L.level
  let acc2 := adds.foldl (applyAddStep L.level) acc1
  { acc2 with
    levels := modifyAt LevelInfo.update_time_range L.level acc2.levels
    consumed := acc2.consumed ++ [L.level] }

/-- `Version::copy_apply_version_edits` together with its heap effect: returns
the new `Version` and the `(level, file_id)` pairs on which the source calls
`ColumnFile::mark_deleted` (on files shared with the old `Version`). -/
def Version.copy_apply_core (v : Version) (version_edits : List VersionEdit)
    (last_seq : Option Nat) : Version × List (Nat × Nat) :=
  let acc :=
    v.levels_info.foldl (copy_apply_step version_edits)
      { levels := LevelInfo.init_levels v.database v.ts_family_id v.storage_opt
        consumed := []
        marked := [] }
  let new_version : Version :=
    { v with
      last_seq := last_seq.getD v.last_seq
      levels_info := acc.levels }
  (new_version.update_max_level_ts, acc.marked)

/-- `Version::copy_apply_version_edits`: the returned new `Version`. -/
def Version.copy_apply_version_edits (v : Version) (version_edits : List VersionEdit)
    (last_seq : Option Nat) : Version :=
  (v.copy_apply_core version_edits last_seq).1

/-- The `(level, file_id)` pairs `mark_deleted`-ed during
`Version::copy_apply_version_edits` (independent of `last_seq`). -/
def Version.marked_deleted (v : Version) (version_edits : List VersionEdit) :
    List (Nat × Nat) :=
  (v.copy_apply_core version_edits none).2

/-- The old `Version` as observed after `copy_apply_version_edits` returned:
structurally untouched, but the shared `ColumnFile`s that the call
`mark_deleted`-ed now carry `deleted = true` (files are identified by their
`(level, file_id)` pair, which the engine keeps unique per file). -/
def Version.afterApplyOld (v : Version) (version_edits : List VersionEdit) : Version :=
  { v with
    levels_info :=
      v.levels_info.map fun L =>
        { L with
          files :=
            L.files.map fun f =>
              if (v.marked_deleted version_edits).any
                  (fun p => p.1 == f.level && p.2 == f.file_id) then
                { f with deleted := true }
              else f } }

/-- `Version::column_files`: files of levels overlapping the range, whose own
range overlaps and whose bloom filter admits at least one requested field id. -/
def Version.column_files (v : Version) (field_ids : List Nat)
    (time_range : TimeRange) : List ColumnFile :=
  (v.levels_info.filter (fun L => L.time_range.overlaps time_range)).foldr
    (fun L acc =>
      L.files.filter
        (fun f => f.time_range.overlaps time_range && f.contains_any_field_id field_ids)
        ++ acc)
    []

/-- `ColumnFile::new` (`tseries_family.rs`): fresh empty bloom filter, clear
flags (path omitted). -/
def ColumnFile.new (file_id level : Nat) (time_range : TimeRange) (size : Nat)
    (is_delta : Bool) : ColumnFile :=
  { file_id := file_id
    level := level
    is_delta := is_delta
    time_range := time_range
    size := size
    field_id_bloom_filter := fun _ => false
    deleted := false
    compacting := false }

/-- Storage options used by the concrete scenarios. -/
def soScenario : StorageOptions := ⟨fun _ => 1000⟩

/-- Level 1 of the scenario of claim C1: file 3 over `3001..3100`. -/
def levelScenario1 : LevelInfo :=
  { files := [ColumnFile.new 3 1 (TimeRange.new 3001 3100) 100 false]
    database := "test"
    tsf_id := 1
    storage_opt := soScenario
    level := 1
    cur_size := 100
    max_size := 1000
    time_range := TimeRange.new 3001 3100 }

/-- Level 2 of the scenario of claim C1: file 1 over `1..1000` and file 2 over
`1001..2000`. -/
def levelScenario2 : LevelInfo :=
  { files :=
      [ColumnFile.new 1 2 (TimeRange.new 1 1000) 1000 false,
       ColumnFile.new 2 2 (TimeRange.new 1001 2000) 1000 false]
    database := "test"
    tsf_id := 1
    storage_opt := soScenario
    level := 2
    cur_size := 2000
    max_size := 1000
    time_range := TimeRange.new 1 2000 }

/-- The starting `Version` of the scenario of claim C1. -/
def versionScenario : Version :=
  { ts_family_id := 1
    database := "test"
    storage_opt := soScenario
    last_seq := 1
    max_level_ts := 3100
    levels_info :=
      [LevelInfo.init "test" 0 1 soScenario,
       levelScenario1,
       levelScenario2,
       LevelInfo.init "test" 3 1 soScenario,
       LevelInfo.init "test" 4 1 soScenario] }

/-- The edits of the scenario of claim C1: add `(4, L1, 3051..3150, seq=2)`,
then delete `(3, L1)`. -/
def editsScenario : List VersionEdit :=
  [{ add_files :=
       [{ file_id := 4, file_size := 100, tsf_id := 1, level := 1, min_ts := 3051,
          max_ts := 3150, high_seq := 2, low_seq := 2, is_delta := false }]
     del_files := [] },
   { add_files := []
     del_files := [{ level := 1, file_id := 3, is_delta := false }] }]

/-- Claim C1: the simple-edit scenario. Applying the add-(4, L1) and
delete-(3, L1) edits with `last_seq = 3` yields a `Version` with
`last_seq = 3`, `max_level_ts = 3150`, level 1 holding exactly file 4 over
`3051..3150`, and level 2 unchanged (same files, size and range). -/
theorem c1_simple_edit :
    (versionScenario.copy_apply_version_edits editsScenario (some 3)).last_seq = 3 ∧
    (versionScenario.copy_apply_version_edits editsScenario (some 3)).max_level_ts = 3150 ∧
    (versionScenario.copy_apply_version_edits editsScenario (some 3)).levels_info.map
        (fun L => L.files.map (fun f => (f.file_id, f.time_range.min_ts, f.time_range.max_ts)))
      = [[], [(4, 3051, 3150)], [(1, 1, 1000), (2, 1001, 2000)], [], []] ∧
    ((versionScenario.copy_apply_version_edits editsScenario (some 3)).levels_info.map
        (fun L => (L.cur_size, L.time_range))).get? 2
      = some (2000, TimeRange.new 1 2000) := by
  refine ⟨rfl, by decide, by decide, by decide⟩

/-- Edit deleting `(level 2, file 3)` while file 3 lives at level 1 — the
del-entry's level does not match the file's own level. -/
def editsDelMismatch : List VersionEdit :=
  [{ add_files := [], del_files := [{ level := 2, file_id := 3, is_delta := false }] }]

/-- Claim C2, counterexample: the del-entry `(level 2, file 3)` names file id 3,
which the Version holds (at level 1), yet after `copy_apply_version_edits`
that `ColumnFile` is not marked deleted (the lookup is keyed by the file's own
`level`), and it even survives, undeleted, into the new `Version`. -/
theorem c2_del_mark_counterexample :
    (editsDelMismatch.any (fun ve => ve.del_files.any (fun d => d.file_id == 3))) = true ∧
    ((versionScenario.afterApplyOld editsDelMismatch).levels_info.map
        (fun L => L.files.map (fun f => (f.file_id, f.deleted))))
      = [[], [(3, false)], [(1, false), (2, false)], [], []] ∧
    ((versionScenario.copy_apply_version_edits editsDelMismatch none).levels_info.map
        (fun L => L.files.map (fun f => (f.file_id, f.deleted))))
      = [[], [(3, false)], [(1, false), (2, false)], [], []] := by
  refine ⟨by decide, by decide, by decide⟩

/-- Claim C4, counterexample: `copy_apply_version_edits` is not pure — on the
C1 scenario it flips the shared `deleted` flag of the old Version's file 3
(false before the call, true after), so the old `Version`'s `ColumnFile`s are
modified. -/
theorem c4_purity_counterexample :
    (versionScenario.levels_info.map
        (fun L => L.files.map (fun f => (f.file_id, f.deleted))))
      = [[], [(3, false)], [(1, false), (2, false)], [], []] ∧
    ((versionScenario.afterApplyOld editsScenario).levels_info.map
        (fun L => L.files.map (fun f => (f.file_id, f.deleted))))
      = [[], [(3, true)], [(1, false), (2, false)], [], []] := by
  refine ⟨by decide, by decide⟩

/-- Merge of a list of time ranges, starting from the sentinel `(MAX, MIN)`
(so the empty list collapses to the sentinel) — the quantity
`LevelInfo::update_time_range` recomputes. -/
def mergeTimeRanges (trs : List TimeRange) : TimeRange :=
  trs.foldl TimeRange.mergeWith { min_ts := timestampMax, max_ts := timestampMin }

/-- The level invariant of claim C6: files strictly ascending by `file_id`,
`cur_size` the sum of the file sizes, `time_range` the merge of the file
ranges. -/
def LevelInfo.invariant (li : LevelInfo) : Prop :=
  li.files.Pairwise (fun a b => a.file_id < b.file_id) ∧
  li.cur_size = (li.files.map ColumnFile.size).sum ∧
  li.time_range = mergeTimeRanges (li.files.map ColumnFile.time_range)

/-- A level obtained by two `push_column_file` mutations that push the same
`file_id` twice. -/
def dupIdLevel : LevelInfo :=
  ((LevelInfo.init "db" 1 1 soScenario).push_column_file
      (ColumnFile.new 3 1 (TimeRange.new 0 10) 5 false)).push_column_file
    (ColumnFile.new 3 1 (TimeRange.new 5 20) 7 false)

/-- Claim C6, counterexample: after the mutation `push_column_file` with a
`file_id` already present, the files are `[3, 3]` — not strictly ascending by
`file_id` — so the invariant fails on a state produced by the listed
mutations. -/
theorem c6_strictly_sorted_counterexample :
    dupIdLevel.files.map ColumnFile.file_id = [3, 3] ∧
    ¬ dupIdLevel.invariant := by
  constructor
  · decide
  · intro h
    have h1 := h.1
    rw [show dupIdLevel.files
          = [ColumnFile.new 3 1 (TimeRange.new 0 10) 5 false,
             ColumnFile.new 3 1 (TimeRange.new 5 20) 7 false] from rfl] at h1
    rcases List.pairwise_cons.mp h1 with ⟨h2, -⟩
    exact absurd (h2 _ (List.mem_singleton.mpr rfl)) (by decide)

/-! ### Basic facts about the level mutators -/

theorem push_column_file_files_perm (li : LevelInfo) (f : ColumnFile) :
    (li.push_column_file f).files.Perm (li.files ++ [f]) :=
  List.perm_insertionSort fileIdLe _

theorem push_column_file_files_sorted (li : LevelInfo) (f : ColumnFile) :
    (li.push_column_file f).files.Sorted fileIdLe :=
  List.sorted_insertionSort fileIdLe _

theorem push_column_file_cur_size (li : LevelInfo) (f : ColumnFile) :
    (li.push_column_file f).cur_size = li.cur_size + f.size := rfl

theorem push_column_file_time_range (li : LevelInfo) (f : ColumnFile) :
    (li.push_column_file f).time_range = li.time_range.mergeWith f.time_range := rfl

theorem push_column_file_level (li : LevelInfo) (f : ColumnFile) :
    (li.push_column_file f).level = li.level := rfl

/-- A list sorted by `file_id` whose ids are distinct is strictly ascending. -/
theorem sorted_nodup_pairwise_lt {l : List ColumnFile} (hs : l.Sorted fileIdLe)
    (hn : (l.map ColumnFile.file_id).Nodup) :
    l.Pairwise (fun a b => a.file_id < b.file_id) := by
  have hne : l.Pairwise (fun a b => a.file_id ≠ b.file_id) := List.pairwise_map.mp hn
  exact (hs.and hne).imp (fun h => lt_of_le_of_ne h.1 h.2)

/-- Strictly ascending files have distinct ids. -/
theorem pairwise_lt_ids_nodup {l : List ColumnFile}
    (hp : l.Pairwise (fun a b => a.file_id < b.file_id)) :
    (l.map ColumnFile.file_id).Nodup :=
  List.pairwise_map.mpr (hp.imp fun h => ne_of_lt h)

theorem mergeWith_right_comm (z x y : TimeRange) :
    (z.mergeWith x).mergeWith y = (z.mergeWith y).mergeWith x := by
  simp only [TimeRange.mergeWith, TimeRange.mk.injEq]
  omega

theorem mergeTimeRanges_perm {l₁ l₂ : List TimeRange} (p : l₁.Perm l₂) :
    mergeTimeRanges l₁ = mergeTimeRanges l₂ :=
  p.foldl_eq' (fun x _ y _ z => mergeWith_right_comm z x y) _

theorem mergeTimeRanges_append_singleton (l : List TimeRange) (t : TimeRange) :
    mergeTimeRanges (l ++ [t]) = (mergeTimeRanges l).mergeWith t := by
  simp [mergeTimeRanges, List.foldl_append]

/-- `push_column_file` preserves the level invariant when the pushed file's id
is not on the level yet. -/
theorem invariant_push_column_file {li : LevelInfo} {f : ColumnFile}
    (h : li.invariant) (hfresh : f.file_id ∉ li.files.map ColumnFile.file_id) :
    (li.push_column_file f).invariant := by
  obtain ⟨hp, hs, ht⟩ := h
  have hperm := push_column_file_files_perm li f
  have hids : ((li.files ++ [f]).map ColumnFile.file_id).Nodup := by
    rw [List.map_append, List.nodup_append]
    exact ⟨pairwise_lt_ids_nodup hp, List.nodup_singleton _,
      List.disjoint_singleton.mpr hfresh⟩
  refine ⟨?_, ?_, ?_⟩
  · exact sorted_nodup_pairwise_lt (push_column_file_files_sorted li f)
      (((hperm.map ColumnFile.file_id).nodup_iff).mpr hids)
  · have h1 : ((li.push_column_file f).files.map ColumnFile.size).sum
        = (((li.files ++ [f]).map ColumnFile.size)).sum :=
      (hperm.map ColumnFile.size).sum_eq
    rw [push_column_file_cur_size, h1, List.map_append, List.sum_append, hs]
    simp
  · have h1 : mergeTimeRanges ((li.push_column_file f).files.map ColumnFile.time_range)
        = mergeTimeRanges ((li.files ++ [f]).map ColumnFile.time_range) :=
      mergeTimeRanges_perm (hperm.map ColumnFile.time_range)
    rw [push_column_file_time_range, h1, List.map_append]
    simp only [List.map_cons, List.map_nil]
    rw [mergeTimeRanges_append_singleton, ht]

/-- `push_compact_meta` is `push_column_file` of the fresh file plus the
`tsf_id` take-over. -/
theorem push_compact_meta_eq (li : LevelInfo) (meta : CompactMeta) :
    li.push_compact_meta meta =
      { li.push_column_file (ColumnFile.with_compact_data meta) with tsf_id := meta.tsf_id } :=
  rfl

theorem push_compact_meta_files_perm (li : LevelInfo) (meta : CompactMeta) :
    (li.push_compact_meta meta).files.Perm
      (li.files ++ [ColumnFile.with_compact_data meta]) :=
  List.perm_insertionSort fileIdLe _

/-- The level invariant does not mention `tsf_id`. -/
theorem invariant_set_tsf_id (li : LevelInfo) (t : Nat) :
    ({ li with tsf_id := t }).invariant ↔ li.invariant := Iff.rfl

theorem invariant_push_compact_meta {li : LevelInfo} {meta : CompactMeta}
    (h : li.invariant) (hfresh : meta.file_id ∉ li.files.map ColumnFile.file_id) :
    (li.push_compact_meta meta).invariant := by
  rw [push_compact_meta_eq, invariant_set_tsf_id]
  exact invariant_push_column_file h hfresh

theorem update_time_range_files (li : LevelInfo) :
    (li.update_time_range).files = li.files := rfl

theorem update_time_range_cur_size (li : LevelInfo) :
    (li.update_time_range).cur_size = li.cur_size := rfl

theorem update_time_range_time_range (li : LevelInfo) :
    (li.update_time_range).time_range
      = mergeTimeRanges (li.files.map ColumnFile.time_range) := by
  simp [LevelInfo.update_time_range, mergeTimeRanges, TimeRange.mergeWith, List.foldl_map]

/-- `update_time_range` (re-)establishes the range clause and preserves the
other two clauses of the invariant. -/
theorem invariant_update_time_range {li : LevelInfo}
    (hp : li.files.Pairwise (fun a b => a.file_id < b.file_id))
    (hs : li.cur_size = (li.files.map ColumnFile.size).sum) :
    (li.update_time_range).invariant := by
  refine ⟨?_, ?_, ?_⟩
  · rw [update_time_range_files]; exact hp
  · rw [update_time_range_cur_size, update_time_range_files]; exact hs
  · rw [update_time_range_time_range, update_time_range_files]

/-! ### Characterizing the rebuild loop of `copy_apply_version_edits` -/

/-- Pushing a list of files in order (`push_column_file` repeatedly). -/
def pushFiles (li : LevelInfo) (fs : List ColumnFile) : LevelInfo :=
  fs.foldl LevelInfo.push_column_file li

/-- Pushing a list of compact metas in order (`push_compact_meta` repeatedly). -/
def pushMetas (li : LevelInfo) (ms : List CompactMeta) : LevelInfo :=
  ms.foldl LevelInfo.push_compact_meta li

/-- The files of a level that survive the edits: those whose own
`(level, file_id)` is not in `deleted_files`. -/
def survivors (version_edits : List VersionEdit) (L : LevelInfo) : List ColumnFile :=
  L.files.filter (fun f => !(deleted_files_contains version_edits f.level f.file_id))

/-- The `(level, file_id)` pairs of a level's files that the edits delete. -/
def markedOf (version_edits : List VersionEdit) (L : LevelInfo) : List (Nat × Nat) :=
  (L.files.filter (fun f => deleted_files_contains version_edits f.level f.file_id)).map
    (fun f => (f.level, f.file_id))

theorem modifyAt_id {α : Type} : ∀ (n : Nat) (xs : List α),
    modifyAt (fun a => a) n xs = xs
  | 0, [] => rfl
  | _ + 1, [] => rfl
  | 0, _ :: _ => rfl
  | n + 1, x :: xs => by simp [modifyAt, modifyAt_id n xs]

theorem modifyAt_modifyAt {α : Type} (g h : α → α) : ∀ (n : Nat) (xs : List α),
    modifyAt g n (modifyAt h n xs) = modifyAt (fun a => g (h a)) n xs
  | 0, [] => rfl
  | _ + 1, [] => rfl
  | 0, _ :: _ => rfl
  | n + 1, x :: xs => by simp [modifyAt, modifyAt_modifyAt g h n xs]

theorem pushFiles_files_perm : ∀ (fs : List ColumnFile) (li : LevelInfo),
    (pushFiles li fs).files.Perm (li.files ++ fs)
  | [], li => by simp [pushFiles]
  | f :: fs, li => by
    have ih := pushFiles_files_perm fs (li.push_column_file f)
    have h1 : ((li.push_column_file f).files ++ fs).Perm ((li.files ++ [f]) ++ fs) :=
      (push_column_file_files_perm li f).append_right fs
    have h2 : (li.files ++ [f]) ++ fs = li.files ++ (f :: fs) := by simp
    rw [h2] at h1
    exact (ih.trans h1)

theorem pushMetas_files_perm : ∀ (ms : List CompactMeta) (li : LevelInfo),
    (pushMetas li ms).files.Perm (li.files ++ ms.map ColumnFile.with_compact_data)
  | [], li => by simp [pushMetas]
  | m :: ms, li => by
    have ih := pushMetas_files_perm ms (li.push_compact_meta m)
    have h1 : ((li.push_compact_meta m).files ++ ms.map ColumnFile.with_compact_data).Perm
        ((li.files ++ [ColumnFile.with_compact_data m]) ++ ms.map ColumnFile.with_compact_data) :=
      (push_compact_meta_files_perm li m).append_right _
    have h2 : (li.files ++ [ColumnFile.with_compact_data m]) ++ ms.map ColumnFile.with_compact_data
        = li.files ++ ((m :: ms).map ColumnFile.with_compact_data) := by simp
    rw [h2] at h1
    exact (ih.trans h1)

theorem pushFiles_invariant : ∀ (fs : List ColumnFile) (li : LevelInfo),
    li.invariant → ((li.files ++ fs).map ColumnFile.file_id).Nodup →
    (pushFiles li fs).invariant
  | [], li, h, _ => by simpa [pushFiles] using h
  | f :: fs, li, h, hn => by
    have hfresh : f.file_id ∉ li.files.map ColumnFile.file_id := by
      rw [List.map_append, List.nodup_append] at hn
      exact fun hmem => hn.2.2 hmem (by simp)
    have h' := invariant_push_column_file h hfresh
    have hn' : (((li.push_column_file f).files ++ fs).map ColumnFile.file_id).Nodup := by
      have hperm : ((li.push_column_file f).files ++ fs).Perm ((li.files ++ [f]) ++ fs) :=
        (push_column_file_files_perm li f).append_right fs
      have h2 : (li.files ++ [f]) ++ fs = li.files ++ (f :: fs) := by simp
      refine ((hperm.map ColumnFile.file_id).nodup_iff).mpr ?_
      rw [h2]
      exact hn
    exact pushFiles_invariant fs _ h' hn'

theorem pushMetas_invariant : ∀ (ms : List CompactMeta) (li : LevelInfo),
    li.invariant →
    (li.files.map ColumnFile.file_id ++ ms.map CompactMeta.file_id).Nodup →
    (pushMetas li ms).invariant
  | [], li, h, _ => by simpa [pushMetas] using h
  | m :: ms, li, h, hn => by
    have hfresh : m.file_id ∉ li.files.map ColumnFile.file_id := by
      rw [List.nodup_append] at hn
      exact fun hmem => hn.2.2 hmem (by simp)
    have h' := invariant_push_compact_meta h hfresh
    have hn' : ((li.push_compact_meta m).files.map ColumnFile.file_id
        ++ ms.map CompactMeta.file_id).Nodup := by
      have hperm : (li.push_compact_meta m).files.Perm
          (li.files ++ [ColumnFile.with_compact_data m]) :=
        push_compact_meta_files_perm li m
      have hperm2 : ((li.push_compact_meta m).files.map ColumnFile.file_id
            ++ ms.map CompactMeta.file_id).Perm
          ((li.files ++ [ColumnFile.with_compact_data m]).map ColumnFile.file_id
            ++ ms.map CompactMeta.file_id) :=
        (hperm.map ColumnFile.file_id).append_right _
      refine (hperm2.nodup_iff).mpr ?_
      have h2 : (li.files ++ [ColumnFile.with_compact_data m]).map ColumnFile.file_id
          ++ ms.map CompactMeta.file_id
          = li.files.map ColumnFile.file_id ++ ((m :: ms).map CompactMeta.file_id) := by
        simp [ColumnFile.with_compact_data]
      rw [h2]
      exact hn
    exact pushMetas_invariant ms _ h' hn'

theorem foldl_applyFilesStep (e : List VersionEdit) (lvl : Nat) :
    ∀ (fs : List ColumnFile) (ls : List LevelInfo) (cs : List Nat) (mk : List (Nat × Nat)),
    fs.foldl (applyFilesStep e lvl) ⟨ls, cs, mk⟩ =
      ⟨modifyAt
          (fun nl => pushFiles nl
            (fs.filter (fun f => !(deleted_files_contains e f.level f.file_id))))
          lvl ls,
        cs,
        mk ++ (fs.filter (fun f => deleted_files_contains e f.level f.file_id)).map
          (fun f => (f.level, f.file_id))⟩
  | [], ls, cs, mk => by
    simp [pushFiles, modifyAt_id]
  | f :: fs, ls, cs, mk => by
    by_cases hdel : deleted_files_contains e f.level f.file_id
    · rw [List.foldl_cons, show applyFilesStep e lvl ⟨ls, cs, mk⟩ f
          = ⟨ls, cs, mk ++ [(f.level, f.file_id)]⟩ from by
        simp [applyFilesStep, hdel]]
      rw [foldl_applyFilesStep e lvl fs ls cs (mk ++ [(f.level, f.file_id)])]
      simp [List.filter_cons, hdel]
    · rw [List.foldl_cons, show applyFilesStep e lvl ⟨ls, cs, mk⟩ f
          = ⟨modifyAt (fun nl => nl.push_column_file f) lvl ls, cs, mk⟩ from by
        simp [applyFilesStep, hdel]]
      rw [foldl_applyFilesStep e lvl fs _ cs mk]
      rw [modifyAt_modifyAt]
      simp [List.filter_cons, hdel, pushFiles]

theorem foldl_applyAddStep (lvl : Nat) :
    ∀ (ms : List CompactMeta) (ls : List LevelInfo) (cs : List Nat) (mk : List (Nat × Nat)),
    ms.foldl (applyAddStep lvl) ⟨ls, cs, mk⟩ =
      ⟨modifyAt (fun nl => pushMetas nl ms) lvl ls, cs, mk⟩
  | [], ls, cs, mk => by simp [pushMetas, modifyAt_id]
  | m :: ms, ls, cs, mk => by
    rw [List.foldl_cons, show applyAddStep lvl ⟨ls, cs, mk⟩ m
        = ⟨modifyAt (fun nl => nl.push_compact_meta m) lvl ls, cs, mk⟩ from rfl]
    rw [foldl_applyAddStep lvl ms _ cs mk, modifyAt_modifyAt]
    simp [pushMetas]

/-- Full characterization of one outer-loop iteration of
`copy_apply_version_edits`. -/
theorem copy_apply_step_eq (e : List VersionEdit) (ls : List LevelInfo)
    (cs : List Nat) (mk : List (Nat × Nat)) (L : LevelInfo) :
    copy_apply_step e ⟨ls, cs, mk⟩ L =
      ⟨modifyAt
          (fun nl =>
            (pushMetas (pushFiles nl (survivors e L))
              (if cs.contains L.level then [] else added_files e L.level)).update_time_range)
          L.level ls,
        cs ++ [L.level],
        mk ++ markedOf e L⟩ := by
  unfold copy_apply_step
  rw [foldl_applyFilesStep e L.level L.files ls cs mk]
  simp only
  rw [foldl_applyAddStep L.level _ _ cs _]
  rw [modifyAt_modifyAt, modifyAt_modifyAt]
  rfl

theorem foldl_copy_apply_step_marked (e : List VersionEdit) :
    ∀ (Ls : List LevelInfo) (acc : ApplyAcc),
    (Ls.foldl (copy_apply_step e) acc).marked
      = acc.marked ++ Ls.foldr (fun L r => markedOf e L ++ r) []
  | [], acc => by simp
  | L :: Ls, acc => by
    obtain ⟨ls, cs, mk⟩ := acc
    rw [List.foldl_cons, copy_apply_step_eq]
    rw [foldl_copy_apply_step_marked e Ls _]
    simp [List.append_assoc]

theorem update_max_level_ts_levels (v : Version) :
    (v.update_max_level_ts).levels_info = v.levels_info := by
  unfold Version.update_max_level_ts
  split <;> rfl

theorem update_max_level_ts_last_seq (v : Version) :
    (v.update_max_level_ts).last_seq = v.last_seq := by
  unfold Version.update_max_level_ts
  split <;> rfl

theorem copy_apply_core_marked (v : Version) (e : List VersionEdit) (ls? : Option Nat) :
    (v.copy_apply_core e ls?).2
      = v.levels_info.foldr (fun L r => markedOf e L ++ r) [] := by
  show (v.levels_info.foldl (copy_apply_step e)
      ⟨LevelInfo.init_levels v.database v.ts_family_id v.storage_opt, [], []⟩).marked = _
  rw [foldl_copy_apply_step_marked]
  simp

theorem mem_foldr_markedOf (e : List VersionEdit) (p : Nat × Nat) :
    ∀ (Ls : List LevelInfo),
    (p ∈ Ls.foldr (fun L r => markedOf e L ++ r) [] ↔ ∃ L ∈ Ls, p ∈ markedOf e L)
  | [] => by simp
  | L :: Ls => by
    simp [mem_foldr_markedOf e p Ls]

/-- Which `(level, file_id)` pairs get `mark_deleted`-ed: exactly those of
files held by the Version whose own `(level, file_id)` is in the edits'
`del_files`. -/
theorem marked_deleted_mem (v : Version) (e : List VersionEdit) (p : Nat × Nat) :
    p ∈ v.marked_deleted e ↔ ∃ L ∈ v.levels_info, ∃ f ∈ L.files,
      deleted_files_contains e f.level f.file_id = true ∧ p = (f.level, f.file_id) := by
  rw [Version.marked_deleted, copy_apply_core_marked, mem_foldr_markedOf]
  constructor
  · rintro ⟨L, hL, hp⟩
    simp only [markedOf, List.mem_map, List.mem_filter] at hp
    obtain ⟨f, ⟨hf, hdel⟩, hpair⟩ := hp
    exact ⟨L, hL, f, hf, hdel, hpair.symm⟩
  · rintro ⟨L, hL, f, hf, hdel, hpair⟩
    refine ⟨L, hL, ?_⟩
    simp only [markedOf, List.mem_map, List.mem_filter]
    exact ⟨f, ⟨hf, hdel⟩, hpair.symm⟩

/-- The level that `copy_apply_version_edits` rebuilds at index `i` from the
current level `L`: survivors re-pushed into a fresh level, added metas pushed,
then `update_time_range`. -/
def rebuildLevel (e : List VersionEdit) (database : String) (tsf_id : Nat)
    (so : StorageOptions) (i : Nat) (L : LevelInfo) : LevelInfo :=
  (pushMetas (pushFiles (LevelInfo.init database i tsf_id so) (survivors e L))
    (added_files e i)).update_time_range

theorem copy_apply_version_edits_levels (v : Version) (e : List VersionEdit)
    (ls? : Option Nat) :
    (v.copy_apply_version_edits e ls?).levels_info
      = (v.levels_info.foldl (copy_apply_step e)
          ⟨LevelInfo.init_levels v.database v.ts_family_id v.storage_opt, [], []⟩).levels := by
  show (Version.update_max_level_ts _).levels_info = _
  rw [update_max_level_ts_levels]

/-- For a well-formed `Version` (five levels, entry `i` at level `i`), the new
`levels_info` is the five rebuilt levels. -/
theorem copy_apply_levels_eq (e : List VersionEdit) (ls? : Option Nat) (v : Version)
    (l0 l1 l2 l3 l4 : LevelInfo) (hv : v.levels_info = [l0, l1, l2, l3, l4])
    (h0 : l0.level = 0) (h1 : l1.level = 1) (h2 : l2.level = 2) (h3 : l3.level = 3)
    (h4 : l4.level = 4) :
    (v.copy_apply_version_edits e ls?).levels_info =
      [rebuildLevel e v.database v.ts_family_id v.storage_opt 0 l0,
       rebuildLevel e v.database v.ts_family_id v.storage_opt 1 l1,
       rebuildLevel e v.database v.ts_family_id v.storage_opt 2 l2,
       rebuildLevel e v.database v.ts_family_id v.storage_opt 3 l3,
       rebuildLevel e v.database v.ts_family_id v.storage_opt 4 l4] := by
  rw [copy_apply_version_edits_levels, hv]
  rw [List.foldl_cons, copy_apply_step_eq, h0]
  rw [List.foldl_cons, copy_apply_step_eq, h1]
  rw [List.foldl_cons, copy_apply_step_eq, h2]
  rw [List.foldl_cons, copy_apply_step_eq, h3]
  rw [List.foldl_cons, copy_apply_step_eq, h4]
  rw [List.foldl_nil]
  simp only [List.nil_append, List.cons_append, List.append_nil]
  simp only [List.contains_nil, List.contains_cons]
  norm_num
  simp only [LevelInfo.init_levels, modifyAt]
  rfl

/-- A freshly initialized level satisfies the invariant. -/
theorem invariant_init (database : String) (level tsf_id : Nat) (so : StorageOptions) :
    (LevelInfo.init database level tsf_id so).invariant :=
  ⟨List.Pairwise.nil, rfl, rfl⟩

/-- The rebuilt level of `copy_apply_version_edits` satisfies the invariant,
provided the old level did and the added metas' ids are distinct and not on
the old level. -/
theorem invariant_rebuildLevel (e : List VersionEdit) (database : String)
    (tsf_id : Nat) (so : StorageOptions) (i : Nat) (L : LevelInfo)
    (hL : L.invariant)
    (hadds : ((added_files e i).map CompactMeta.file_id).Nodup)
    (hdisj : ∀ m ∈ added_files e i, m.file_id ∉ L.files.map ColumnFile.file_id) :
    (rebuildLevel e database tsf_id so i L).invariant := by
  have hsub : (survivors e L).Sublist L.files := List.filter_sublist _
  have hsurv_nodup : ((survivors e L).map ColumnFile.file_id).Nodup :=
    (pairwise_lt_ids_nodup hL.1).sublist (hsub.map _)
  have h1 : (pushFiles (LevelInfo.init database i tsf_id so) (survivors e L)).invariant :=
    pushFiles_invariant _ _ (invariant_init database i tsf_id so)
      (by simpa [LevelInfo.init] using hsurv_nodup)
  have hpfperm : ((pushFiles (LevelInfo.init database i tsf_id so)
      (survivors e L)).files.map ColumnFile.file_id).Perm
        ((survivors e L).map ColumnFile.file_id) := by
    have := (pushFiles_files_perm (survivors e L)
      (LevelInfo.init database i tsf_id so)).map ColumnFile.file_id
    simpa [LevelInfo.init] using this
  have h2 : (pushMetas (pushFiles (LevelInfo.init database i tsf_id so) (survivors e L))
      (added_files e i)).invariant := by
    refine pushMetas_invariant _ _ h1 ?_
    rw [List.nodup_append]
    refine ⟨hpfperm.nodup_iff.mpr hsurv_nodup, hadds, ?_⟩
    intro x hx hx'
    obtain ⟨m, hm, hmx⟩ := List.mem_map.mp hx'
    have hxsurv : x ∈ (survivors e L).map ColumnFile.file_id := hpfperm.mem_iff.mp hx
    have hxL : x ∈ L.files.map ColumnFile.file_id :=
      (hsub.map ColumnFile.file_id).mem hxsurv
    exact hdisj m hm (hmx ▸ hxL)
  exact invariant_update_time_range h2.1 h2.2.1

/-- Claim C6, amended: each mutation of a `LevelInfo` preserves the invariant
(files strictly ascending by `file_id`, `cur_size` the sum of file sizes,
`time_range` the merge of file ranges) provided the invariant held before and
each pushed file id is not already on the level; `update_time_range` preserves
it unconditionally, and the rebuild inside `copy_apply_version_edits`
establishes it on every new level of a well-formed `Version` whose added
metas have distinct ids that are not on their target level. -/
theorem c6_level_invariant_preserved :
    (∀ (li : LevelInfo) (f : ColumnFile), li.invariant →
        f.file_id ∉ li.files.map ColumnFile.file_id →
        (li.push_column_file f).invariant) ∧
    (∀ (li : LevelInfo) (meta : CompactMeta), li.invariant →
        meta.file_id ∉ li.files.map ColumnFile.file_id →
        (li.push_compact_meta meta).invariant) ∧
    (∀ li : LevelInfo, li.invariant → (li.update_time_range).invariant) ∧
    (∀ (v : Version) (e : List VersionEdit) (ls? : Option Nat)
        (l0 l1 l2 l3 l4 : LevelInfo),
        v.levels_info = [l0, l1, l2, l3, l4] →
        l0.level = 0 → l1.level = 1 → l2.level = 2 → l3.level = 3 → l4.level = 4 →
        (∀ L ∈ v.levels_info, L.invariant) →
        (∀ i L₀, v.levels_info.get? i = some L₀ →
            ((added_files e i).map CompactMeta.file_id).Nodup ∧
            ∀ m ∈ added_files e i, m.file_id ∉ L₀.files.map ColumnFile.file_id) →
        ∀ L ∈ (v.copy_apply_version_edits e ls?).levels_info, L.invariant) := by
  refine ⟨fun li f h hf => invariant_push_column_file h hf,
    fun li m h hf => invariant_push_compact_meta h hf,
    fun li h => invariant_update_time_range h.1 h.2.1,
    ?_⟩
  intro v e ls? l0 l1 l2 l3 l4 hv h0 h1 h2 h3 h4 hinv hfresh
  intro L hL
  rw [copy_apply_levels_eq e ls? v l0 l1 l2 l3 l4 hv h0 h1 h2 h3 h4] at hL
  have hmem : ∀ i li₀, v.levels_info.get? i = some li₀ → li₀ ∈ v.levels_info :=
    fun i li₀ h => List.get?_mem h
  simp only [List.mem_cons, List.not_mem_nil, or_false] at hL
  rcases hL with h | h | h | h | h <;> subst h
  · exact invariant_rebuildLevel e _ _ _ 0 l0
      (hinv l0 (by rw [hv]; simp))
      (hfresh 0 l0 (by rw [hv]; rfl)).1 (hfresh 0 l0 (by rw [hv]; rfl)).2
  · exact invariant_rebuildLevel e _ _ _ 1 l1
      (hinv l1 (by rw [hv]; simp))
      (hfresh 1 l1 (by rw [hv]; rfl)).1 (hfresh 1 l1 (by rw [hv]; rfl)).2
  · exact invariant_rebuildLevel e _ _ _ 2 l2
      (hinv l2 (by rw [hv]; simp))
      (hfresh 2 l2 (by rw [hv]; rfl)).1 (hfresh 2 l2 (by rw [hv]; rfl)).2
  · exact invariant_rebuildLevel e _ _ _ 3 l3
      (hinv l3 (by rw [hv]; simp))
      (hfresh 3 l3 (by rw [hv]; rfl)).1 (hfresh 3 l3 (by rw [hv]; rfl)).2
  · exact invariant_rebuildLevel e _ _ _ 4 l4
      (hinv l4 (by rw [hv]; simp))
      (hfresh 4 l4 (by rw [hv]; rfl)).1 (hfresh 4 l4 (by rw [hv]; rfl)).2

/-- Witness for `c6_level_invariant_preserved`: pushing the fresh file 4 onto
the C1 scenario's level 1 preserves the invariant. -/
theorem c6_level_invariant_preserved_witness :
    (levelScenario1.push_column_file
      (ColumnFile.new 4 1 (TimeRange.new 3051 3150) 100 false)).invariant :=
  c6_level_invariant_preserved.1 levelScenario1
    (ColumnFile.new 4 1 (TimeRange.new 3051 3150) 100 false)
    (by refine ⟨?_, ?_, ?_⟩ <;> decide)
    (by decide)

/-- Exactly-once counting on a rebuilt level: if `fid` is not on the old
level and occurs exactly once among the added metas for index `i`, the rebuilt
level holds exactly one file with id `fid`. -/
theorem countP_rebuildLevel (e : List VersionEdit) (database : String)
    (tsf_id : Nat) (so : StorageOptions) (i fid : Nat) (L : LevelInfo)
    (hfreshL : fid ∉ L.files.map ColumnFile.file_id)
    (hcnt : (added_files e i).countP (fun mm => mm.file_id == fid) = 1) :
    (rebuildLevel e database tsf_id so i L).files.countP
      (fun f => f.file_id == fid) = 1 := by
  have hfiles : (rebuildLevel e database tsf_id so i L).files
      = (pushMetas (pushFiles (LevelInfo.init database i tsf_id so) (survivors e L))
          (added_files e i)).files := rfl
  have hperm1 : (pushMetas (pushFiles (LevelInfo.init database i tsf_id so)
        (survivors e L)) (added_files e i)).files.Perm
      ((pushFiles (LevelInfo.init database i tsf_id so) (survivors e L)).files
        ++ (added_files e i).map ColumnFile.with_compact_data) :=
    pushMetas_files_perm _ _
  have hperm2 : ((pushFiles (LevelInfo.init database i tsf_id so) (survivors e L)).files
        ++ (added_files e i).map ColumnFile.with_compact_data).Perm
      (survivors e L ++ (added_files e i).map ColumnFile.with_compact_data) := by
    refine List.Perm.append_right _ ?_
    simpa [LevelInfo.init] using pushFiles_files_perm (survivors e L)
      (LevelInfo.init database i tsf_id so)
  rw [hfiles, (hperm1.trans hperm2).countP_eq, List.countP_append]
  have hz : (survivors e L).countP (fun f => f.file_id == fid) = 0 := by
    rw [List.countP_eq_zero]
    intro f hf hbeq
    have : f.file_id = fid := by simpa using hbeq
    exact hfreshL (this ▸ List.mem_map_of_mem ColumnFile.file_id
      ((List.filter_sublist _).mem hf))
  have hm : ((added_files e i).map ColumnFile.with_compact_data).countP
      (fun f => f.file_id == fid) = 1 := by
    rw [List.countP_map]
    exact hcnt
  rw [hz, hm]

/-- The fresh `ColumnFile` built from an added meta is present in the rebuilt
level. -/
theorem wcd_mem_rebuildLevel (e : List VersionEdit) (database : String)
    (tsf_id : Nat) (so : StorageOptions) (i : Nat) (m : CompactMeta)
    (L : LevelInfo) (hm : m ∈ added_files e i) :
    ColumnFile.with_compact_data m ∈ (rebuildLevel e database tsf_id so i L).files := by
  have hperm : (rebuildLevel e database tsf_id so i L).files.Perm
      ((pushFiles (LevelInfo.init database i tsf_id so) (survivors e L)).files
        ++ (added_files e i).map ColumnFile.with_compact_data) :=
    pushMetas_files_perm _ _
  exact hperm.mem_iff.mpr
    (List.mem_append_right _ (List.mem_map_of_mem ColumnFile.with_compact_data hm))

/-- Claim C2, amended: (a) after `copy_apply_version_edits`, every
`ColumnFile` held by the `Version` whose own `(level, file_id)` matches some
`del_files` entry (matching level and id) is marked deleted; (b) for a
well-formed `Version`, every added `CompactMeta` whose target level is one of
the five levels and whose `file_id` is fresh (one occurrence among the adds of
that level, not already on that level) yields exactly one `ColumnFile` with
its id in the level the meta names. -/
theorem c2_marked_deleted_and_added_once :
    (∀ (v : Version) (e : List VersionEdit),
        ∀ L ∈ (v.afterApplyOld e).levels_info, ∀ g ∈ L.files,
          deleted_files_contains e g.level g.file_id = true → g.deleted = true) ∧
    (∀ (v : Version) (e : List VersionEdit) (ls? : Option Nat)
        (l0 l1 l2 l3 l4 : LevelInfo) (m : CompactMeta),
        v.levels_info = [l0, l1, l2, l3, l4] →
        l0.level = 0 → l1.level = 1 → l2.level = 2 → l3.level = 3 → l4.level = 4 →
        m ∈ e.foldr (fun ve acc => ve.add_files ++ acc) [] →
        (added_files e m.level).countP (fun mm => mm.file_id == m.file_id) = 1 →
        (∀ L₀, v.levels_info.get? m.level = some L₀ →
          m.file_id ∉ L₀.files.map ColumnFile.file_id) →
        m.level < 5 →
        ∃ L', (v.copy_apply_version_edits e ls?).levels_info.get? m.level = some L' ∧
          L'.files.countP (fun f => f.file_id == m.file_id) = 1 ∧
          ColumnFile.with_compact_data m ∈ L'.files) := by
  constructor
  · intro v e L hL g hg hdel
    simp only [Version.afterApplyOld, List.mem_map] at hL
    obtain ⟨L₀, hL₀, rfl⟩ := hL
    simp only [List.mem_map] at hg
    obtain ⟨f, hf, rfl⟩ := hg
    by_cases hc : (v.marked_deleted e).any
        (fun p => p.1 == f.level && p.2 == f.file_id) = true
    · simp [hc]
    · exfalso
      apply hc
      rw [List.any_eq_true]
      refine ⟨(f.level, f.file_id), ?_, by simp⟩
      rw [marked_deleted_mem]
      have hdel' : deleted_files_contains e f.level f.file_id = true := by
        revert hdel
        split <;> exact fun h => h
      exact ⟨L₀, hL₀, f, hf, hdel', rfl⟩
  · intro v e ls? l0 l1 l2 l3 l4 m hv h0 h1 h2 h3 h4 _hm hcnt hfresh hlt
    have hlv := copy_apply_levels_eq e ls? v l0 l1 l2 l3 l4 hv h0 h1 h2 h3 h4
    have hcases : m.level = 0 ∨ m.level = 1 ∨ m.level = 2 ∨ m.level = 3 ∨ m.level = 4 := by
      omega
    have hmadd : m ∈ added_files e m.level :=
      List.mem_filter.mpr ⟨_hm, by simp⟩
    rcases hcases with h | h | h | h | h <;> rw [h] at hcnt hfresh hmadd ⊢ <;> rw [hlv]
    · exact ⟨_, rfl, countP_rebuildLevel e _ _ _ 0 m.file_id l0
        (hfresh l0 (by rw [hv]; rfl)) hcnt,
        wcd_mem_rebuildLevel e _ _ _ 0 m l0 hmadd⟩
    · exact ⟨_, rfl, countP_rebuildLevel e _ _ _ 1 m.file_id l1
        (hfresh l1 (by rw [hv]; rfl)) hcnt,
        wcd_mem_rebuildLevel e _ _ _ 1 m l1 hmadd⟩
    · exact ⟨_, rfl, countP_rebuildLevel e _ _ _ 2 m.file_id l2
        (hfresh l2 (by rw [hv]; rfl)) hcnt,
        wcd_mem_rebuildLevel e _ _ _ 2 m l2 hmadd⟩
    · exact ⟨_, rfl, countP_rebuildLevel e _ _ _ 3 m.file_id l3
        (hfresh l3 (by rw [hv]; rfl)) hcnt,
        wcd_mem_rebuildLevel e _ _ _ 3 m l3 hmadd⟩
    · exact ⟨_, rfl, countP_rebuildLevel e _ _ _ 4 m.file_id l4
        (hfresh l4 (by rw [hv]; rfl)) hcnt,
        wcd_mem_rebuildLevel e _ _ _ 4 m l4 hmadd⟩

/-- The added meta of the C1 scenario. -/
def metaScenario : CompactMeta :=
  { file_id := 4, file_size := 100, tsf_id := 1, level := 1, min_ts := 3051,
    max_ts := 3150, high_seq := 2, low_seq := 2, is_delta := false }

/-- Witness for `c2_marked_deleted_and_added_once` on the C1 scenario: file 4
appears exactly once in level 1 of the new `Version`. -/
theorem c2_marked_deleted_and_added_once_witness :
    ∃ L', (versionScenario.copy_apply_version_edits editsScenario
        (some 3)).levels_info.get? metaScenario.level = some L' ∧
      L'.files.countP (fun f => f.file_id == metaScenario.file_id) = 1 ∧
      ColumnFile.with_compact_data metaScenario ∈ L'.files :=
  c2_marked_deleted_and_added_once.2 versionScenario editsScenario (some 3)
    (LevelInfo.init "test" 0 1 soScenario) levelScenario1 levelScenario2
    (LevelInfo.init "test" 3 1 soScenario) (LevelInfo.init "test" 4 1 soScenario)
    metaScenario rfl rfl rfl rfl rfl rfl (by decide) (by decide)
    (fun L₀ hL₀ => by
      have h : levelScenario1 = L₀ := Option.some.inj hL₀
      subst h
      decide)
    (by decide)

/-- For a file held by the Version, the any-match against the marked pairs is
exactly the `deleted_files` test on the file's own `(level, file_id)`. -/
theorem marked_any_eq_dfc (v : Version) (e : List VersionEdit) {L : LevelInfo}
    (hL : L ∈ v.levels_info) {f : ColumnFile} (hf : f ∈ L.files) :
    (v.marked_deleted e).any (fun p => p.1 == f.level && p.2 == f.file_id)
      = deleted_files_contains e f.level f.file_id := by
  by_cases hdel : deleted_files_contains e f.level f.file_id = true
  · rw [hdel, List.any_eq_true]
    exact ⟨(f.level, f.file_id),
      (marked_deleted_mem v e _).mpr ⟨L, hL, f, hf, hdel, rfl⟩, by simp⟩
  · rw [Bool.eq_false_iff.mpr hdel, Bool.eq_false_iff]
    intro hx
    rw [List.any_eq_true] at hx
    obtain ⟨p, hp, hpb⟩ := hx
    rw [marked_deleted_mem] at hp
    obtain ⟨L', _, f', _, hdel', hpeq⟩ := hp
    simp only [Bool.and_eq_true, beq_iff_eq] at hpb
    subst hpeq
    simp only at hpb
    exact hdel (hpb.1 ▸ hpb.2 ▸ hdel')

/-- The surviving files of a level are unchanged by the marking of the first
call: marked files are exactly the non-survivors, and survivors are left
untouched by the mark map. -/
theorem survivors_map_markIf (v : Version) (e : List VersionEdit) {L : LevelInfo}
    (hL : L ∈ v.levels_info) :
    ∀ (fs : List ColumnFile), (∀ f ∈ fs, f ∈ L.files) →
    (fs.map (fun f =>
        if (v.marked_deleted e).any (fun p => p.1 == f.level && p.2 == f.file_id) then
          { f with deleted := true } else f)).filter
      (fun f => !(deleted_files_contains e f.level f.file_id))
      = fs.filter (fun f => !(deleted_files_contains e f.level f.file_id))
  | [], _ => rfl
  | g :: gs, hmem => by
    have hg : g ∈ L.files := hmem g (by simp)
    have hany := marked_any_eq_dfc v e hL hg
    have ih := survivors_map_markIf v e hL gs (fun f hf => hmem f (by simp [hf]))
    by_cases hdel : deleted_files_contains e g.level g.file_id = true
    · have hgim : (if (v.marked_deleted e).any
            (fun p => p.1 == g.level && p.2 == g.file_id) then
          { g with deleted := true } else g) = { g with deleted := true } := by
        rw [hany]
        exact if_pos hdel
      simp only [List.map_cons]
      rw [hgim]
      simp only [List.filter_cons]
      rw [show ({ g with deleted := true } : ColumnFile).level = g.level from rfl,
        show ({ g with deleted := true } : ColumnFile).file_id = g.file_id from rfl,
        hdel]
      rw [if_neg (by simp), if_neg (by simp)]
      exact ih
    · have hgim : (if (v.marked_deleted e).any
            (fun p => p.1 == g.level && p.2 == g.file_id) then
          { g with deleted := true } else g) = g := by
        rw [hany, Bool.eq_false_iff.mpr hdel]
        exact if_neg (by simp)
      simp only [List.map_cons]
      rw [hgim]
      simp only [List.filter_cons]
      rw [ih]

/-- The marked pairs contributed by a level are unchanged by the marking of
the first call (marking preserves `(level, file_id)`). -/
theorem markedPairs_map_markIf (v : Version) (e : List VersionEdit) {L : LevelInfo}
    (hL : L ∈ v.levels_info) :
    ∀ (fs : List ColumnFile), (∀ f ∈ fs, f ∈ L.files) →
    ((fs.map (fun f =>
        if (v.marked_deleted e).any (fun p => p.1 == f.level && p.2 == f.file_id) then
          { f with deleted := true } else f)).filter
      (fun f => deleted_files_contains e f.level f.file_id)).map
        (fun f => (f.level, f.file_id))
      = (fs.filter (fun f => deleted_files_contains e f.level f.file_id)).map
        (fun f => (f.level, f.file_id))
  | [], _ => rfl
  | g :: gs, hmem => by
    have hg : g ∈ L.files := hmem g (by simp)
    have hany := marked_any_eq_dfc v e hL hg
    have ih := markedPairs_map_markIf v e hL gs (fun f hf => hmem f (by simp [hf]))
    by_cases hdel : deleted_files_contains e g.level g.file_id = true
    · have hgim : (if (v.marked_deleted e).any
            (fun p => p.1 == g.level && p.2 == g.file_id) then
          { g with deleted := true } else g) = { g with deleted := true } := by
        rw [hany]
        exact if_pos hdel
      simp only [List.map_cons]
      rw [hgim]
      simp only [List.filter_cons]
      rw [show ({ g with deleted := true } : ColumnFile).level = g.level from rfl,
        show ({ g with deleted := true } : ColumnFile).file_id = g.file_id from rfl,
        hdel]
      rw [if_pos rfl, if_pos rfl]
      simp only [List.map_cons]
      rw [show ({ g with deleted := true } : ColumnFile).level = g.level from rfl,
        show ({ g with deleted := true } : ColumnFile).file_id = g.file_id from rfl,
        ih]
    · have hgim : (if (v.marked_deleted e).any
            (fun p => p.1 == g.level && p.2 == g.file_id) then
          { g with deleted := true } else g) = g := by
        rw [hany, Bool.eq_false_iff.mpr hdel]
        exact if_neg (by simp)
      simp only [List.map_cons]
      rw [hgim]
      simp only [List.filter_cons]
      rw [if_neg hdel, if_neg hdel]
      exact ih

theorem copy_apply_step_afterApply (v : Version) (e : List VersionEdit) {L : LevelInfo}
    (hL : L ∈ v.levels_info) (ls : List LevelInfo) (cs : List Nat)
    (mk : List (Nat × Nat)) :
    copy_apply_step e ⟨ls, cs, mk⟩
      { L with files := L.files.map (fun f =>
          if (v.marked_deleted e).any (fun p => p.1 == f.level && p.2 == f.file_id) then
            { f with deleted := true } else f) }
      = copy_apply_step e ⟨ls, cs, mk⟩ L := by
  have hs : survivors e { L with files := L.files.map (fun f =>
      if (v.marked_deleted e).any (fun p => p.1 == f.level && p.2 == f.file_id) then
        { f with deleted := true } else f) } = survivors e L :=
    survivors_map_markIf v e hL L.files (fun f hf => hf)
  have hmk : markedOf e { L with files := L.files.map (fun f =>
      if (v.marked_deleted e).any (fun p => p.1 == f.level && p.2 == f.file_id) then
        { f with deleted := true } else f) } = markedOf e L :=
    markedPairs_map_markIf v e hL L.files (fun f hf => hf)
  rw [copy_apply_step_eq, copy_apply_step_eq]
  simp only [hs, hmk]

theorem foldl_step_afterApply (v : Version) (e : List VersionEdit) :
    ∀ (Ls : List LevelInfo), (∀ L ∈ Ls, L ∈ v.levels_info) → ∀ (acc : ApplyAcc),
    ((Ls.map (fun L => { L with files := L.files.map (fun f =>
        if (v.marked_deleted e).any (fun p => p.1 == f.level && p.2 == f.file_id) then
          { f with deleted := true } else f) })).foldl (copy_apply_step e) acc)
      = Ls.foldl (copy_apply_step e) acc
  | [], _, _ => rfl
  | L :: Ls, hmem, acc => by
    simp only [List.map_cons, List.foldl_cons]
    obtain ⟨ls, cs, mk⟩ := acc
    rw [copy_apply_step_afterApply v e (hmem L (by simp)) ls cs mk]
    exact foldl_step_afterApply v e Ls (fun L' h => hmem L' (by simp [h])) _

/-- Re-running `copy_apply_version_edits` after the first call's heap effect
(the marks on the old Version's shared files) yields the same new `Version`:
the deleted flag never feeds back into the rebuild. -/
theorem copy_apply_after_marks (v : Version) (e : List VersionEdit) (ls? : Option Nat) :
    (v.afterApplyOld e).copy_apply_version_edits e ls?
      = v.copy_apply_version_edits e ls? := by
  show Version.update_max_level_ts
      { ts_family_id := v.ts_family_id, database := v.database,
        storage_opt := v.storage_opt, last_seq := ls?.getD v.last_seq,
        max_level_ts := v.max_level_ts,
        levels_info := ((v.afterApplyOld e).levels_info.foldl (copy_apply_step e)
          ⟨LevelInfo.init_levels v.database v.ts_family_id v.storage_opt, [], []⟩).levels }
    = Version.update_max_level_ts
      { ts_family_id := v.ts_family_id, database := v.database,
        storage_opt := v.storage_opt, last_seq := ls?.getD v.last_seq,
        max_level_ts := v.max_level_ts,
        levels_info := (v.levels_info.foldl (copy_apply_step e)
          ⟨LevelInfo.init_levels v.database v.ts_family_id v.storage_opt, [], []⟩).levels }
  rw [show (v.afterApplyOld e).levels_info
      = v.levels_info.map (fun L => { L with files := L.files.map (fun f =>
          if (v.marked_deleted e).any (fun p => p.1 == f.level && p.2 == f.file_id) then
            { f with deleted := true } else f) }) from rfl]
  rw [foldl_step_afterApply v e v.levels_info (fun _ h => h) _]

/-- Claim C4, amended: `copy_apply_version_edits` cannot fail and its result is
a function of its inputs, but it is not pure: through the shared handles it
sets the `deleted` flag of exactly the files matching a `del_files` entry.
Everything else about the old `Version` — identity, sequence, `max_level_ts`,
every level's shape and every file's other attributes — is unmodified, and a
second identical call, run after the first call's marks, returns an equal
`Version` (the flag never feeds back into the rebuild). -/
theorem c4_structure_preserved_deleted_flag (v : Version) (e : List VersionEdit) :
    (v.afterApplyOld e).ts_family_id = v.ts_family_id ∧
    (v.afterApplyOld e).database = v.database ∧
    (v.afterApplyOld e).last_seq = v.last_seq ∧
    (v.afterApplyOld e).max_level_ts = v.max_level_ts ∧
    (v.afterApplyOld e).levels_info.length = v.levels_info.length ∧
    (∀ i, ((v.afterApplyOld e).levels_info.get? i).map
        (fun L => (L.level, L.cur_size, L.max_size, L.time_range, L.files.length))
      = (v.levels_info.get? i).map
        (fun L => (L.level, L.cur_size, L.max_size, L.time_range, L.files.length))) ∧
    (∀ (i j : Nat) (f : ColumnFile),
      (v.levels_info.get? i).bind (fun L => L.files.get? j) = some f →
      ∃ g, ((v.afterApplyOld e).levels_info.get? i).bind (fun L => L.files.get? j) = some g ∧
        g.file_id = f.file_id ∧ g.level = f.level ∧ g.is_delta = f.is_delta ∧
        g.time_range = f.time_range ∧ g.size = f.size ∧ g.compacting = f.compacting ∧
        g.deleted = (f.deleted || deleted_files_contains e f.level f.file_id)) ∧
    (∀ ls2 : Option Nat,
      (v.afterApplyOld e).copy_apply_version_edits e ls2
        = v.copy_apply_version_edits e ls2) := by
  refine ⟨rfl, rfl, rfl, rfl, by simp [Version.afterApplyOld], ?_, ?_,
    fun ls2 => copy_apply_after_marks v e ls2⟩
  · intro i
    show ((v.levels_info.map _).get? i).map _ = _
    rw [List.get?_map]
    cases v.levels_info.get? i <;> simp
  · intro i j f hf
    rcases hLi : v.levels_info.get? i with _ | L
    · rw [hLi] at hf; exact absurd hf (by simp)
    rw [hLi] at hf
    rw [show (some L).bind (fun L => L.files.get? j) = L.files.get? j from rfl] at hf
    have hL : L ∈ v.levels_info := List.get?_mem hLi
    have hfmem : f ∈ L.files := List.get?_mem hf
    have hside : ((v.afterApplyOld e).levels_info.get? i).bind (fun L => L.files.get? j)
        = some (if (v.marked_deleted e).any
              (fun p => p.1 == f.level && p.2 == f.file_id) then
            { f with deleted := true } else f) := by
      show ((v.levels_info.map _).get? i).bind _ = _
      rw [List.get?_map, hLi]
      show (L.files.map _).get? j = _
      rw [List.get?_map, hf]
      rfl
    refine ⟨_, hside, ?_⟩
    by_cases hdel : deleted_files_contains e f.level f.file_id = true
    · have hany : (v.marked_deleted e).any
          (fun p => p.1 == f.level && p.2 == f.file_id) = true := by
        rw [List.any_eq_true]
        refine ⟨(f.level, f.file_id), ?_, by simp⟩
        rw [marked_deleted_mem]
        exact ⟨L, hL, f, hfmem, hdel, rfl⟩
      rw [hany, if_pos rfl, hdel]
      simp
    · have hany : (v.marked_deleted e).any
          (fun p => p.1 == f.level && p.2 == f.file_id) = false := by
        rw [Bool.eq_false_iff]
        intro hx
        rw [List.any_eq_true] at hx
        obtain ⟨p, hp, hpb⟩ := hx
        rw [marked_deleted_mem] at hp
        obtain ⟨L', _, f', _, hdel', hpeq⟩ := hp
        simp only [Bool.and_eq_true, beq_iff_eq] at hpb
        subst hpeq
        simp only at hpb
        exact hdel (hpb.1 ▸ hpb.2 ▸ hdel')
      have hdel' : deleted_files_contains e f.level f.file_id = false :=
        Bool.eq_false_iff.mpr hdel
      rw [hany]
      simp [hdel']

/-- Witness for `c4_structure_preserved_deleted_flag` on the C1 scenario:
file 3 of the old `Version` keeps all attributes, with `deleted` now true. -/
theorem c4_structure_preserved_deleted_flag_witness :
    ∃ g, ((versionScenario.afterApplyOld editsScenario).levels_info.get? 1).bind
        (fun L => L.files.get? 0) = some g ∧
      g.file_id = 3 ∧ g.level = 1 ∧ g.is_delta = false ∧
      g.time_range = TimeRange.new 3001 3100 ∧ g.size = 100 ∧ g.compacting = false ∧
      g.deleted = true :=
  (c4_structure_preserved_deleted_flag versionScenario editsScenario).2.2.2.2.2.2.1
    1 0 (ColumnFile.new 3 1 (TimeRange.new 3001 3100) 100 false) rfl

/-- Claim C9: `Version::column_files` with an empty `field_ids` list returns
no files — `contains_any_field_id` over an empty slice is false for every
file, so every file is filtered out of every level. -/
theorem c9_column_files_empty_field_ids (v : Version) (time_range : TimeRange) :
    v.column_files [] time_range = [] := by
  unfold Version.column_files
  generalize (v.levels_info.filter fun L => L.time_range.overlaps time_range) = Ls
  induction Ls with
  | nil => rfl
  | cons L Ls ih =>
    simp only [List.foldr_cons, ih, List.append_nil]
    simp [ColumnFile.contains_any_field_id]

/-- A decoded data block; its contents are irrelevant to the embedded control
flow of `read_column_file`, which only collects blocks. -/
abbrev DataBlock := Nat

/-- The TSM reader, abstracted to what `LevelInfo::read_column_file` consumes:
for a field id and restricting range, the outcomes of `get_data_block` on each
block meta that `index_iterator_opt`/`block_iterator_opt` yield (`none` = an
`Err`, which the source's `if let Ok` silently skips). -/
structure TsmReader where
  blocks : Nat → TimeRange → List (Option DataBlock)

/-- The scanning loop of `LevelInfo::read_column_file`; `openReader` gives the
outcome of `TsmReader::open` per file id (`none` = open failure). Files marked
deleted or not overlapping the range are skipped; an open failure logs and
`return vec![]`, discarding the blocks collected so far. -/
def read_column_file_go (openReader : Nat → Option TsmReader) (field_id : Nat)
    (time_range : TimeRange) : List ColumnFile → List DataBlock → List DataBlock
  | [], data => data
  | f :: fs, data =>
    if f.deleted || !(f.overlap time_range) then
      read_column_file_go openReader field_id time_range fs data
    else
      match openReader f.file_id with
      | none => []
      | some reader =>
        read_column_file_go openReader field_id time_range fs
          (data ++ (reader.blocks field_id time_range).filterMap id)

/-- `LevelInfo::read_column_file` (`tseries_family.rs`); the source borrows
`&self` and never mutates the level — the embedding is accordingly a pure
function of the level. (`tf_id` is unused by the source's body and kept for
signature fidelity.) -/
def LevelInfo.read_column_file (li : LevelInfo) (tf_id : Nat)
    (openReader : Nat → Option TsmReader) (field_id : Nat)
    (time_range : TimeRange) : List DataBlock :=
  read_column_file_go openReader field_id time_range li.files []

theorem read_column_file_go_abort (openReader : Nat → Option TsmReader)
    (field_id : Nat) (time_range : TimeRange) :
    ∀ (fs : List ColumnFile) (data : List DataBlock),
    (∃ f ∈ fs, f.deleted = false ∧ f.overlap time_range = true ∧
      openReader f.file_id = none) →
    read_column_file_go openReader field_id time_range fs data = []
  | [], _, h => by simp at h
  | f :: fs, data, h => by
    obtain ⟨g, hg, hgdel, hgov, hgopen⟩ := h
    rw [read_column_file_go]
    by_cases hskip : (f.deleted || !(f.overlap time_range)) = true
    · rw [if_pos hskip]
      rcases List.mem_cons.mp hg with rfl | hg'
      · rw [hgdel, hgov] at hskip
        simp at hskip
      · exact read_column_file_go_abort openReader field_id time_range fs data
          ⟨g, hg', hgdel, hgov, hgopen⟩
    · rw [if_neg hskip]
      rcases hopen : openReader f.file_id with _ | reader
      · rfl
      · rcases List.mem_cons.mp hg with rfl | hg'
        · rw [hgopen] at hopen
          exact absurd hopen (by simp)
        · exact read_column_file_go_abort openReader field_id time_range fs _
            ⟨g, hg', hgdel, hgov, hgopen⟩

/-- Claim C8: if opening the TSM reader fails for some candidate file of the
level (not deleted, overlapping the scan range), `read_column_file` returns
the empty result, discarding any blocks collected from earlier files; the
level itself is a borrowed `&self` and unchanged (the embedding is pure). -/
theorem c8_read_column_file_abort (li : LevelInfo) (tf_id : Nat)
    (openReader : Nat → Option TsmReader) (field_id : Nat) (time_range : TimeRange)
    (h : ∃ f ∈ li.files, f.deleted = false ∧ f.overlap time_range = true ∧
      openReader f.file_id = none) :
    li.read_column_file tf_id openReader field_id time_range = [] :=
  read_column_file_go_abort openReader field_id time_range li.files [] h

/-- Witness for `c8_read_column_file_abort`: one candidate file whose reader
fails to open. -/
theorem c8_read_column_file_abort_witness :
    levelScenario1.read_column_file 1 (fun _ => none) 0 (TimeRange.new 3000 4000) = [] :=
  c8_read_column_file_abort levelScenario1 1 (fun _ => none) 0 (TimeRange.new 3000 4000)
    ⟨ColumnFile.new 3 1 (TimeRange.new 3001 3100) 100 false,
      List.mem_singleton.mpr rfl, rfl, by decide, rfl⟩

/-- `MemCache`, embedded down to what the `TseriesFamily` operations observe
(`memcache.rs` holds the row-group internals, which no checked claim touches):
identity and capacity from `MemCache::new(tf_id, max_size, seq_no)`, and the
`flushed`/`flushing` phase flags, clear on a fresh cache. -/
structure MemCache where
  tf_id : Nat
  max_size : Nat
  seq_no : Nat
  flushed : Bool
  flushing : Bool
deriving DecidableEq, Repr

/-- `MemCache::new`. -/
def MemCache.new (tf_id max_size seq_no : Nat) : MemCache :=
  { tf_id := tf_id, max_size := max_size, seq_no := seq_no,
    flushed := false, flushing := false }

/-- `CacheGroup` (`tseries_family.rs`). -/
structure CacheGroup where
  mut_cache : MemCache
  immut_cache : List MemCache

/-- `SuperVersion` (`tseries_family.rs`). -/
structure SuperVersion where
  ts_family_id : Nat
  storage_opt : StorageOptions
  caches : CacheGroup
  version : Version
  version_number : Nat

/-- `CacheOptions`: the two cache-configuration fields the embedded operations
read. -/
structure CacheOptions where
  max_buffer_size : Nat
  max_immutable_number : Nat

/-- `FlushReq` (`compaction/mod.rs`): the caches to flush, tagged by vnode. -/
structure FlushReq where
  mems : List (Nat × MemCache)

/-- `TseriesFamily` (`tseries_family.rs`); the flush-task channel and the
compaction picker trait object are I/O collaborators and omitted. -/
structure TseriesFamily where
  tf_id : Nat
  database : String
  mut_cache : MemCache
  immut_cache : List MemCache
  super_version : SuperVersion
  super_version_id : Nat
  version : Version
  cache_opt : CacheOptions
  storage_opt : StorageOptions
  seq_no : Nat
  immut_ts_min : Int
  mut_ts_max : Int

/-- `TseriesFamily::new`: seeds `seq_no` from the version, publishes the first
`SuperVersion` with `version_number = 0` and `super_version_id = 0`. -/
def TseriesFamily.new (tf_id : Nat) (database : String) (cache : MemCache)
    (version : Version) (cache_opt : CacheOptions) (storage_opt : StorageOptions) :
    TseriesFamily :=
  { tf_id := tf_id
    database := database
    mut_cache := cache
    immut_cache := []
    super_version :=
      { ts_family_id := tf_id
        storage_opt := storage_opt
        caches := { mut_cache := cache, immut_cache := [] }
        version := version
        version_number := 0 }
    super_version_id := 0
    version := version
    cache_opt := cache_opt
    storage_opt := storage_opt
    seq_no := version.last_seq
    immut_ts_min := version.max_level_ts
    mut_ts_max := timestampMin }

/-- `TseriesFamily::new_super_version`: `fetch_add(1)` on `super_version_id`,
then publish a fresh `SuperVersion` carrying the incremented id. -/
def TseriesFamily.new_super_version (t : TseriesFamily) (version : Version) :
    TseriesFamily :=
  { t with
    super_version_id := t.super_version_id + 1
    super_version :=
      { ts_family_id := t.tf_id
        storage_opt := t.storage_opt
        caches := { mut_cache := t.mut_cache, immut_cache := t.immut_cache }
        version := version
        version_number := t.super_version_id + 1 } }

/-- `TseriesFamily::switch_memcache`: push the mutable cache onto the
immutables, publish, then install the given cache as mutable (the publication
happens before the replacement, as in the source). -/
def TseriesFamily.switch_memcache (t : TseriesFamily) (cache : MemCache) :
    TseriesFamily :=
  let t1 := { t with immut_cache := t.immut_cache ++ [t.mut_cache] }
  let t2 := t1.new_super_version t1.version
  { t2 with mut_cache := cache }

/-- `TseriesFamily::new_version`: install a new `Version`, publish, update
`seq_no` from `last_seq`. -/
def TseriesFamily.new_version (t : TseriesFamily) (new_version : Version) :
    TseriesFamily :=
  let t1 := t.new_super_version new_version
  { t1 with seq_no := new_version.last_seq, version := new_version }

/-- `TseriesFamily::switch_to_immutable`: rotate the mutable cache into the
immutables, allocate a fresh mutable with the current `seq_no` and configured
buffer size, publish. -/
def TseriesFamily.switch_to_immutable (t : TseriesFamily) : TseriesFamily :=
  let t1 := { t with immut_cache := t.immut_cache ++ [t.mut_cache] }
  let t2 := { t1 with
    mut_cache := MemCache.new t1.tf_id t1.cache_opt.max_buffer_size t1.seq_no }
  t2.new_super_version t2.version

/-- `TseriesFamily::flush_req`: sweep already-flushed immutables (republishing
if any were removed), update `immut_ts_min`, gather the not-yet-flushing
immutables; return `None` when not forced and below `max_immutable_number`,
else mark the gathered caches flushing and return the request. (The caches
inside the returned `FlushReq` are shared `Arc`s in the source; value
semantics here copies them before the marking, which no claim observes.) -/
def TseriesFamily.flush_req (t : TseriesFamily) (force : Bool) :
    TseriesFamily × Option FlushReq :=
  let len := t.immut_cache.length
  let t1 := { t with immut_cache := t.immut_cache.filter (fun m => !m.flushed) }
  let t2 : TseriesFamily := if len ≠ t1.immut_cache.length then t1.new_super_version t1.version else t1
  let t3 := { t2 with immut_ts_min := t2.mut_ts_max }
  let req_mems : List (Nat × MemCache) := (t3.immut_cache.filter (fun m => !m.flushing)).map
    (fun m => (t3.tf_id, m))
  if !force && decide (req_mems.length < t3.cache_opt.max_immutable_number) then
    (t3, none)
  else
    ({ t3 with
        immut_cache := t3.immut_cache.map
          (fun m => if !m.flushing then { m with flushing := true } else m) },
      some { mems := req_mems })

/-- The publication consistency invariant: the published `SuperVersion`
carries the current `super_version_id` (true from `TseriesFamily::new` on and
preserved by every operation). -/
def TseriesFamily.svId_consistent (t : TseriesFamily) : Prop :=
  t.super_version.version_number = t.super_version_id

theorem flush_req_fst_version_number (t : TseriesFamily) (force : Bool) :
    (t.flush_req force).1.super_version.version_number
      = if t.immut_cache.length
            = (t.immut_cache.filter (fun m => !m.flushed)).length
        then t.super_version.version_number
        else t.super_version_id + 1 := by
  by_cases hne : t.immut_cache.length
      = (t.immut_cache.filter (fun m => !m.flushed)).length
  · simp only [TseriesFamily.flush_req, hne, ne_eq, not_true_eq_false, if_false,
      if_pos hne]
    split <;> rfl
  · simp only [TseriesFamily.flush_req, ne_eq, hne, not_false_eq_true, if_true,
      if_neg hne]
    split <;> rfl

theorem flush_req_fst_super_version_id (t : TseriesFamily) (force : Bool) :
    (t.flush_req force).1.super_version_id
      = if t.immut_cache.length
            = (t.immut_cache.filter (fun m => !m.flushed)).length
        then t.super_version_id
        else t.super_version_id + 1 := by
  by_cases hne : t.immut_cache.length
      = (t.immut_cache.filter (fun m => !m.flushed)).length
  · simp only [TseriesFamily.flush_req, hne, ne_eq, not_true_eq_false, if_false,
      if_pos hne]
    split <;> rfl
  · simp only [TseriesFamily.flush_req, ne_eq, hne, not_false_eq_true, if_true,
      if_neg hne]
    split <;> rfl

/-- Claim C7, SuperVersion publication is monotone: starting from
`TseriesFamily::new` (where the published number equals `super_version_id`),
every replacement — `new_version`, `switch_to_immutable`, `switch_memcache`,
and a `flush_req` sweep that removed flushed caches — publishes a
`version_number` strictly greater than the previous one, and keeps the
consistency invariant. -/
theorem c7_super_version_monotone :
    (∀ (tf_id : Nat) (database : String) (cache : MemCache) (version : Version)
        (cache_opt : CacheOptions) (storage_opt : StorageOptions),
      (TseriesFamily.new tf_id database cache version cache_opt
        storage_opt).svId_consistent) ∧
    (∀ t : TseriesFamily, t.svId_consistent →
      (∀ nv : Version,
        (t.new_version nv).super_version.version_number
            > t.super_version.version_number ∧
          (t.new_version nv).svId_consistent) ∧
      (t.switch_to_immutable.super_version.version_number
          > t.super_version.version_number ∧
        t.switch_to_immutable.svId_consistent) ∧
      (∀ cache : MemCache,
        (t.switch_memcache cache).super_version.version_number
            > t.super_version.version_number ∧
          (t.switch_memcache cache).svId_consistent) ∧
      (∀ force : Bool,
        ((∃ m ∈ t.immut_cache, m.flushed = true) →
          (t.flush_req force).1.super_version.version_number
            > t.super_version.version_number) ∧
        (t.flush_req force).1.svId_consistent)) := by
  refine ⟨fun _ _ _ _ _ _ => rfl, ?_⟩
  intro t h
  have hvn : t.super_version.version_number = t.super_version_id := h
  refine ⟨?_, ?_, ?_, ?_⟩
  · intro nv
    constructor
    · show t.super_version_id + 1 > t.super_version.version_number
      rw [hvn]; exact Nat.lt_succ_self _
    · show t.super_version_id + 1 = t.super_version_id + 1
      rfl
  · constructor
    · show t.super_version_id + 1 > t.super_version.version_number
      rw [hvn]; exact Nat.lt_succ_self _
    · show t.super_version_id + 1 = t.super_version_id + 1
      rfl
  · intro cache
    constructor
    · show t.super_version_id + 1 > t.super_version.version_number
      rw [hvn]; exact Nat.lt_succ_self _
    · show t.super_version_id + 1 = t.super_version_id + 1
      rfl
  · intro force
    constructor
    · intro hex
      obtain ⟨m, hm, hmf⟩ := hex
      have hlt : (t.immut_cache.filter (fun m => !m.flushed)).length
          < t.immut_cache.length :=
        List.length_filter_lt_length_iff_exists.mpr ⟨m, hm, by simp [hmf]⟩
      rw [flush_req_fst_version_number, if_neg (Nat.ne_of_gt hlt), hvn]
      exact Nat.lt_succ_self _
    · show (t.flush_req force).1.super_version.version_number
        = (t.flush_req force).1.super_version_id
      rw [flush_req_fst_version_number, flush_req_fst_super_version_id]
      by_cases hne : t.immut_cache.length
          = (t.immut_cache.filter (fun m => !m.flushed)).length
      · rw [if_pos hne, if_pos hne, hvn]
      · rw [if_neg hne, if_neg hne]

/-- A concrete `TseriesFamily` used by the witnesses. -/
def tsfScenario : TseriesFamily :=
  TseriesFamily.new 1 "test" (MemCache.new 1 100 1) versionScenario
    { max_buffer_size := 100, max_immutable_number := 1 } soScenario

/-- Witness for `c7_super_version_monotone`: one `switch_to_immutable` on a
fresh vnode bumps the published `version_number`. -/
theorem c7_super_version_monotone_witness :
    tsfScenario.switch_to_immutable.super_version.version_number
      > tsfScenario.super_version.version_number :=
  ((c7_super_version_monotone.2 tsfScenario rfl).2.1).1

/-- Claim C10: `flush_req` with `force = true` when no immutable cache is
eligible (none at all, or every immutable is already flushed or flushing)
still returns `Some(FlushReq)` — with an empty `mems` list — rather than
`None`. -/
theorem c10_flush_req_force_returns_empty (t : TseriesFamily)
    (h : ∀ m ∈ t.immut_cache, m.flushed = true ∨ m.flushing = true) :
    (t.flush_req true).2 = some { mems := [] } := by
  have hreq : ((t.immut_cache.filter (fun m => !m.flushed)).filter
      (fun m => !m.flushing)) = [] := by
    rw [List.filter_eq_nil]
    intro a ha
    have ha' := List.mem_filter.mp ha
    rcases h a ha'.1 with hf | hf
    · exact absurd ha'.2 (by simp [hf])
    · simp [hf]
  simp only [TseriesFamily.flush_req]
  by_cases hne : t.immut_cache.length
      = (t.immut_cache.filter (fun m => !m.flushed)).length
  · simp [hne, hreq]
  · simp [hne, hreq, TseriesFamily.new_super_version]

/-- Witness for `c10_flush_req_force_returns_empty`: a vnode whose single
immutable cache is already flushing. -/
theorem c10_flush_req_force_returns_empty_witness :
    ({ tsfScenario with
        immut_cache := [{ MemCache.new 1 100 1 with flushing := true }] }.flush_req
      true).2 = some { mems := [] } :=
  c10_flush_req_force_returns_empty _
    (fun m hm => by
      rw [List.mem_singleton.mp hm]
      exact Or.inr rfl)

/-- `GlobalSequenceContext` (`context.rs`): minimum sequence number across all
vnodes plus the per-vnode map, consumed by WAL garbage collection. -/
structure GlobalSequenceContext where
  min_seq : Nat
  tsf_seq_map : List (Nat × Nat)
deriving DecidableEq, Repr

/-- `HashMap::insert` on the association-list embedding of `tsf_seq_map`. -/
def mapInsert (m : List (Nat × Nat)) (k v : Nat) : List (Nat × Nat) :=
  if m.any (fun p => p.1 == k) then
    m.map (fun p => if p.1 == k then (k, v) else p)
  else m ++ [(k, v)]

/-- Modelled from the spec: `database.rs` is not under `src/`; the spec
describes a `Database` as part of the registry "databases → vnodes", and
`VersionSet::get_global_sequence_context` consumes only its `ts_families()`
map, embedded here as the association list of `(tsf_id, TseriesFamily)`. -/
structure Database where
  ts_families : List (Nat × TseriesFamily)

/-- `VersionSet` (`version_set.rs`): the registry `DBName -> DB`. -/
structure VersionSet where
  dbs : List (String × Database)

/-- `VersionSet::get_global_sequence_context` (`version_set.rs`): starts
`min_seq` at `0_u64`, then for every vnode takes `min` with its `seq_no` and
records the pair in the map. -/
def VersionSet.get_global_sequence_context (vs : VersionSet) : GlobalSequenceContext :=
  let r :=
    vs.dbs.foldl
      (fun (acc : Nat × List (Nat × Nat)) db =>
        db.2.ts_families.foldl
          (fun (acc : Nat × List (Nat × Nat)) p =>
            (min acc.1 p.2.seq_no, mapInsert acc.2 p.1 p.2.seq_no))
          acc)
      (0, [])
  { min_seq := r.1, tsf_seq_map := r.2 }

/-- A `VersionSet` with a single live vnode whose `seq_no` is 5. -/
def versionSetScenario : VersionSet :=
  { dbs := [("cnosdb.test",
      { ts_families := [(1, { tsfScenario with seq_no := 5 })] })] }

/-- Claim C3: `get_global_sequence_context` is documented (and specified) to
return the minimum `seq_no` across all live vnodes, but the accumulator
starts at `0` instead of `u64::MAX`, so with a single vnode at `seq_no = 5`
it returns `min_seq = 0`, not `5` (the per-vnode map is right). The
`min_seq ≤ every seq_no` half holds vacuously because `0` is the least
`u64`. -/
theorem c3_min_seq_accumulator_bug :
    versionSetScenario.get_global_sequence_context.min_seq = 0 ∧
    versionSetScenario.dbs.map (fun d => d.2.ts_families.map (fun p => p.2.seq_no))
      = [[5]] ∧
    versionSetScenario.get_global_sequence_context.tsf_seq_map = [(1, 5)] := by
  refine ⟨rfl, rfl, rfl⟩
